import Mathlib

/-!
Shallow embedding of the core of `lighthouse-core/audits/work-during-interaction.js`
and of the artifact-resolution pass of the fraggle-rock `config.js` shipped in the
same repository, together with proofs of the specified properties.

Trace timestamps and durations are embedded as rationals (`ℚ`): the JavaScript
code manipulates them with `+`, `-`, `max`, `min` and division by the constant
1000, all of which are exact here.
-/

/-- The timing fields of a raw trace event that `recursivelyClipTasks` reads:
`event.ts` and `event.dur` (`dur` may be absent, as `task.event.dur` may be
`undefined` in the source; `Number(task.event.dur || 0)` is embedded as
`dur.getD 0`). -/
structure TraceEvent where
  ts : ℚ
  dur : Option ℚ
deriving DecidableEq, Repr

/-- The four derived fields that clipping recomputes on every `TaskNode`:
`startTime`, `endTime`, `duration`, `selfTime` (all in milliseconds after the
`/ 1000` conversion in `recursivelyClipTasks`). -/
structure DerivedTiming where
  startTime : ℚ
  endTime : ℚ
  duration : ℚ
  selfTime : ℚ
deriving DecidableEq, Repr

mutual
/-- A `TaskNode` from `main-thread-tasks.js` as used by this audit: the original
trace `event`, the optional separate end event timestamp (`task.endEvent?.ts`),
the derived timing fields, and the ordered children. The JS `parent` pointer is
represented structurally: a node's parent is the node that owns it in the
forest, so it needs no separate field in a tree embedding. -/
inductive TaskNode : Type where
  | node (event : TraceEvent) (endEventTs : Option ℚ) (timing : DerivedTiming)
      (children : TaskForest) : TaskNode
/-- An ordered sequence of `TaskNode`s (the `children` array / the root forest). -/
inductive TaskForest : Type where
  | nil : TaskForest
  | cons (t : TaskNode) (ts : TaskForest) : TaskForest
end

/-- The derived timing fields of a node. -/
def TaskNode.timing : TaskNode → DerivedTiming
  | .node _ _ d _ => d

/-- The original trace event of a node (never modified by clipping). -/
def TaskNode.event : TaskNode → TraceEvent
  | .node ev _ _ _ => ev

/-- The optional end-event timestamp of a node. -/
def TaskNode.endEventTs : TaskNode → Option ℚ
  | .node _ ee _ _ => ee

/-- The children sequence of a node. -/
def TaskNode.children : TaskNode → TaskForest
  | .node _ _ _ cs => cs

/-- `const taskEventEnd = task.endEvent?.ts ?? task.event.ts + Number(task.event.dur || 0)`. -/
def taskEventEndOf (event : TraceEvent) (endEventTs : Option ℚ) : ℚ :=
  match endEventTs with
  | some ts => ts
  | none => event.ts + event.dur.getD 0

/-- Sum of the `duration` fields of a forest, matching the
`.map(...).reduce((sum, child) => sum + child, 0)` accumulation of the clipped
child durations (`recursivelyClipTasks` returns `task.duration`). -/
def forestDurationSum : TaskForest → ℚ
  | .nil => 0
  | .cons t ts => t.timing.duration + forestDurationSum ts

mutual
/-- Embeds `recursivelyClipTasks(task, parent, startTs, endTs)`. The JS version
mutates `task` in place and returns `task.duration`; the embedding returns the
updated node (its `duration` field is the JS return value). The `parent`
parameter of the source is never read in its body and is dropped here.
Every derived field is recomputed from the original event timestamps only:
`startTime = Math.max(startTs, Math.min(endTs, taskEventStart)) / 1000`, etc. -/
def recursivelyClipTasks (startTs endTs : ℚ) : TaskNode → TaskNode
  | .node event endEventTs _ children =>
    let taskEventStart := event.ts
    let taskEventEnd := taskEventEndOf event endEventTs
    let startTime := max startTs (min endTs taskEventStart) / 1000
    let endTime := max startTs (min endTs taskEventEnd) / 1000
    let duration := endTime - startTime
    let clippedChildren := clipChildren startTs endTs children
    let childTime := forestDurationSum clippedChildren
    .node event endEventTs
      ⟨startTime, endTime, duration, duration - childTime⟩ clippedChildren
/-- The `task.children.map(child => recursivelyClipTasks(child, task, startTs, endTs))`
recursion, element by element. -/
def clipChildren (startTs endTs : ℚ) : TaskForest → TaskForest
  | .nil => .nil
  | .cons t ts => .cons (recursivelyClipTasks startTs endTs t) (clipChildren startTs endTs ts)
end

/-- Embeds `clipTasksByTs(tasks, startTs, endTs)`. The source iterates over all
tasks and skips any task with a `parent` (`if (task.parent) continue`), so only
root tasks are clipped directly; non-roots are reached through the recursion.
The embedding therefore takes the forest of root tasks. -/
def clipTasksByTs (tasks : TaskForest) (startTs endTs : ℚ) : TaskForest :=
  clipChildren startTs endTs tasks

mutual
/-- Checks, recursively, the self-time invariant on a node:
`selfTime = duration - sum of children's durations`. -/
def selfTimeOk : TaskNode → Bool
  | .node _ _ d children =>
    decide (d.selfTime = d.duration - forestDurationSum children) && selfTimeOkForest children
/-- `selfTimeOk` at every node of a forest. -/
def selfTimeOkForest : TaskForest → Bool
  | .nil => true
  | .cons t ts => selfTimeOk t && selfTimeOkForest ts
end

mutual
/-- Erases the derived timing fields of every node, keeping the original event
data, the end-event timestamp and the tree structure: two trees agree under
`stripDerived` exactly when they differ at most in derived timing fields. -/
def stripDerived : TaskNode → TaskNode
  | .node ev ee _ children => .node ev ee ⟨0, 0, 0, 0⟩ (stripDerivedForest children)
/-- `stripDerived` applied across a forest. -/
def stripDerivedForest : TaskForest → TaskForest
  | .nil => .nil
  | .cons t ts => .cons (stripDerived t) (stripDerivedForest ts)
end

mutual
theorem recursivelyClipTasks_reclip (sA eA sB eB : ℚ) (t : TaskNode) :
    recursivelyClipTasks sB eB (recursivelyClipTasks sA eA t) =
      recursivelyClipTasks sB eB t := by
  cases t with
  | node ev ee d cs =>
    simp only [recursivelyClipTasks, clipChildren_reclip]
theorem clipChildren_reclip (sA eA sB eB : ℚ) (f : TaskForest) :
    clipChildren sB eB (clipChildren sA eA f) = clipChildren sB eB f := by
  cases f with
  | nil => simp [clipChildren]
  | cons t ts =>
    simp only [clipChildren, recursivelyClipTasks_reclip, clipChildren_reclip]
end

mutual
theorem selfTimeOk_clip (s e : ℚ) (t : TaskNode) :
    selfTimeOk (recursivelyClipTasks s e t) = true := by
  cases t with
  | node ev ee d cs =>
    simp only [recursivelyClipTasks, selfTimeOk, selfTimeOkForest_clip, sub_right_inj,
      decide_eq_true_eq, Bool.and_eq_true, and_true]
theorem selfTimeOkForest_clip (s e : ℚ) (f : TaskForest) :
    selfTimeOkForest (clipChildren s e f) = true := by
  cases f with
  | nil => simp [clipChildren, selfTimeOkForest]
  | cons t ts =>
    simp only [clipChildren, selfTimeOkForest, selfTimeOk_clip, selfTimeOkForest_clip,
      Bool.and_self]
end

mutual
theorem stripDerived_clip (s e : ℚ) (t : TaskNode) :
    stripDerived (recursivelyClipTasks s e t) = stripDerived t := by
  cases t with
  | node ev ee d cs =>
    simp only [recursivelyClipTasks, stripDerived, stripDerivedForest_clip]
theorem stripDerivedForest_clip (s e : ℚ) (f : TaskForest) :
    stripDerivedForest (clipChildren s e f) = stripDerivedForest f := by
  cases f with
  | nil => simp [clipChildren, stripDerivedForest]
  | cons t ts =>
    simp only [clipChildren, stripDerivedForest, stripDerived_clip, stripDerivedForest_clip]
end

/-- Claim C1: clipping is recomputed from the original event timestamps every
time — for every task forest and any two windows A and B, `clipTasksByTs` with
window A followed by window B yields the same forest (hence the same
`startTime`, `endTime`, `duration` and `selfTime` at every node) as
`clipTasksByTs` with window B alone on the freshly built forest. -/
theorem clipTasksByTs_reclip_eq (tasks : TaskForest) (sA eA sB eB : ℚ) :
    clipTasksByTs (clipTasksByTs tasks sA eA) sB eB = clipTasksByTs tasks sB eB :=
  clipChildren_reclip sA eA sB eB tasks

/-- Claim C2: after `clipTasksByTs` with any window, every node of the forest
satisfies `selfTime = duration - sum of the (clipped) durations of its children`. -/
theorem clipTasksByTs_selfTime_invariant (tasks : TaskForest) (startTs endTs : ℚ) :
    selfTimeOkForest (clipTasksByTs tasks startTs endTs) = true :=
  selfTimeOkForest_clip startTs endTs tasks

/-- Claim C7: `clipTasksByTs` changes only the derived fields `startTime`,
`endTime`, `duration`, `selfTime`: stripping those fields from the clipped
forest gives back exactly the stripped original — the original event
timestamps (`event.ts`, `event.dur`, `endEvent.ts`), the children sequences
and hence every parent relationship are unchanged. -/
theorem clipTasksByTs_preserves_structure (tasks : TaskForest) (startTs endTs : ℚ) :
    stripDerivedForest (clipTasksByTs tasks startTs endTs) = stripDerivedForest tasks :=
  stripDerivedForest_clip startTs endTs tasks

/-- The fields of `interactionEvent.args.data` read by this audit:
`timeStamp`, `processingStart`, `processingEnd`, `duration` (milliseconds) and
the interaction `type` string. -/
structure InteractionData where
  timeStamp : ℚ
  processingStart : ℚ
  processingEnd : ℚ
  duration : ℚ
  interactionType : String
deriving DecidableEq, Repr

/-- An `EventTimingEvent`: its absolute trace timestamp `ts` (microseconds) and
its `args.data` payload. -/
structure EventTimingEvent where
  ts : ℚ
  data : InteractionData
deriving DecidableEq, Repr

/-- A `{startTs, endTs}` window in raw trace time units. -/
structure TimeWindow where
  startTs : ℚ
  endTs : ℚ
deriving DecidableEq, Repr

/-- The record returned by `getPhaseTimes`: the three named phase windows, in
the insertion order of the source object literal. -/
structure PhaseTimes where
  inputDelay : TimeWindow
  processingDelay : TimeWindow
  presentationDelay : TimeWindow
deriving DecidableEq, Repr

/-- Embeds `getPhaseTimes(interactionEvent)`: with `startTs = interactionEvent.ts`,
`navStart = startTs - data.timeStamp * 1000`,
`processingStartTs = navStart + data.processingStart * 1000`,
`processingEndTs = navStart + data.processingEnd * 1000`,
`endTs = startTs + data.duration * 1000`. -/
def getPhaseTimes (interactionEvent : EventTimingEvent) : PhaseTimes :=
  let interactionData := interactionEvent.data
  let startTs := interactionEvent.ts
  let navStart := startTs - interactionData.timeStamp * 1000
  let processingStartTs := navStart + interactionData.processingStart * 1000
  let processingEndTs := navStart + interactionData.processingEnd * 1000
  let endTs := startTs + interactionData.duration * 1000
  { inputDelay := ⟨startTs, processingStartTs⟩
    processingDelay := ⟨processingStartTs, processingEndTs⟩
    presentationDelay := ⟨processingEndTs, endTs⟩ }

/-- Claim C3: the three windows returned by `getPhaseTimes` are contiguous
(each window's `endTs` is the next window's `startTs`), they start at the
interaction's `ts` and end at `ts` plus its duration (in trace units,
`duration * 1000` microseconds), and their lengths sum exactly to the
interaction's total duration. -/
theorem getPhaseTimes_partition (interactionEvent : EventTimingEvent) :
    (getPhaseTimes interactionEvent).inputDelay.startTs = interactionEvent.ts ∧
    (getPhaseTimes interactionEvent).inputDelay.endTs =
      (getPhaseTimes interactionEvent).processingDelay.startTs ∧
    (getPhaseTimes interactionEvent).processingDelay.endTs =
      (getPhaseTimes interactionEvent).presentationDelay.startTs ∧
    (getPhaseTimes interactionEvent).presentationDelay.endTs =
      interactionEvent.ts + interactionEvent.data.duration * 1000 ∧
    ((getPhaseTimes interactionEvent).inputDelay.endTs -
        (getPhaseTimes interactionEvent).inputDelay.startTs) +
      ((getPhaseTimes interactionEvent).processingDelay.endTs -
        (getPhaseTimes interactionEvent).processingDelay.startTs) +
      ((getPhaseTimes interactionEvent).presentationDelay.endTs -
        (getPhaseTimes interactionEvent).presentationDelay.startTs) =
      interactionEvent.data.duration * 1000 := by
  refine ⟨rfl, rfl, rfl, rfl, ?_⟩
  simp only [getPhaseTimes]
  ring

/-- `const TASK_THRESHOLD = 1;` — the fixed noise threshold (milliseconds). -/
def TASK_THRESHOLD : ℚ := 1

/-- One per-URL row pushed by `eventThreadBreakdown`:
`{url, total, scripting, layout, render}`. -/
structure BreakdownResult where
  url : String
  total : ℚ
  scripting : ℚ
  layout : ℚ
  render : ℚ
deriving DecidableEq, Repr

/-- Embeds
`results.filter(result => result.total > TASK_THRESHOLD).sort((a, b) => b.total - a.total)`.
`Array.prototype.sort` is required to be stable, with `a` placed before `b`
whenever the comparator is nonpositive, i.e. whenever `b.total ≤ a.total`;
`List.mergeSort` with that test is such a stable sort. -/
def filteredResults (results : List BreakdownResult) : List BreakdownResult :=
  (results.filter (fun r => decide (TASK_THRESHOLD < r.total))).mergeSort
    (fun a b => decide (b.total ≤ a.total))

/-- One row of the phase table built by `eventThreadBreakdown`: the phase name,
the top-level `total` (`(phaseTimes.endTs - phaseTimes.startTs) / 1000`), and
the filtered, sorted per-URL sub-items. -/
structure PhaseItem where
  phase : String
  total : ℚ
  subItems : List BreakdownResult
deriving DecidableEq, Repr

/-- One iteration of the `for (const [phaseName, phaseTimes] of Object.entries(phases))`
loop: clip the thread tasks to the phase window, attribute execution timings by
URL, filter and sort them, and emit the item whose top-level `total` is the
window length in milliseconds. `getExecutionTimingsByURL` (from
`task-summary.js`, external to this audit) is a parameter. Clipping in the
source mutates `threadTasks` in place across iterations; since every clip is
recomputed from original event timings, clipping the original forest per phase
is equivalent. -/
def phaseItemFor (getExecutionTimingsByURL : TaskForest → List BreakdownResult)
    (threadTasks : TaskForest) (phaseName : String) (phaseTimes : TimeWindow) : PhaseItem :=
  let clipped := clipTasksByTs threadTasks phaseTimes.startTs phaseTimes.endTs
  { phase := phaseName
    total := (phaseTimes.endTs - phaseTimes.startTs) / 1000
    subItems := filteredResults (getExecutionTimingsByURL clipped) }

/-- Embeds the item-building loop of `eventThreadBreakdown`: the three phases
are visited in the insertion order of the object returned by `getPhaseTimes`. -/
def eventThreadBreakdown (getExecutionTimingsByURL : TaskForest → List BreakdownResult)
    (threadTasks : TaskForest) (interactionEvent : EventTimingEvent) : List PhaseItem :=
  let phases := getPhaseTimes interactionEvent
  [phaseItemFor getExecutionTimingsByURL threadTasks "inputDelay" phases.inputDelay,
   phaseItemFor getExecutionTimingsByURL threadTasks "processingDelay" phases.processingDelay,
   phaseItemFor getExecutionTimingsByURL threadTasks "presentationDelay" phases.presentationDelay]

def rowA : BreakdownResult := ⟨"a.example", 5, 0, 0, 0⟩

def rowB : BreakdownResult := ⟨"b.example", 5, 0, 0, 0⟩

def rowC : BreakdownResult := ⟨"c.example", 1, 0, 0, 0⟩

/-- Claim C6 counterexample: ties between equal totals are NOT broken by origin.
With two rows of equal total, the output keeps whichever input order the rows
arrived in — `[rowB, rowA]` stays `[rowB, rowA]` while `[rowA, rowB]` stays
`[rowA, rowB]` — so the order of equal-total rows is not a function of the rows'
origins at all. In the same run, `rowC` with total exactly equal to
`TASK_THRESHOLD` (not below it) is also dropped. -/
theorem filteredResults_counterexample :
    filteredResults [rowB, rowA, rowC] = [rowB, rowA] ∧
    filteredResults [rowA, rowB, rowC] = [rowA, rowB] ∧
    rowA.total = rowB.total ∧ rowA.url ≠ rowB.url ∧
    ¬ (rowC.total < TASK_THRESHOLD) := by
  refine ⟨?_, ?_, rfl, by decide, by norm_num [rowC, TASK_THRESHOLD]⟩
  · simp [filteredResults, rowA, rowB, rowC, TASK_THRESHOLD, List.mergeSort, List.filter]
  · simp [filteredResults, rowA, rowB, rowC, TASK_THRESHOLD, List.mergeSort, List.filter]

/-- Claim C6 (amended): `filteredResults` keeps exactly the rows whose total is
strictly above `TASK_THRESHOLD` (so a total exactly at the threshold is also
dropped), sorts them descending by total, and for equal totals keeps the input
order (stable sort); the output is a deterministic function of the input list. -/
theorem filteredResults_sorted_stable (results : List BreakdownResult) :
    List.Pairwise (fun a b : BreakdownResult => b.total ≤ a.total)
        (filteredResults results) ∧
    (filteredResults results).Perm
        (results.filter (fun r => decide (TASK_THRESHOLD < r.total))) ∧
    ∀ a b : BreakdownResult, b.total ≤ a.total →
      List.Sublist [a, b] (results.filter (fun r => decide (TASK_THRESHOLD < r.total))) →
      List.Sublist [a, b] (filteredResults results) := by
  have htrans : ∀ a b c : BreakdownResult,
      (fun a b : BreakdownResult => decide (b.total ≤ a.total)) a b = true →
      (fun a b : BreakdownResult => decide (b.total ≤ a.total)) b c = true →
      (fun a b : BreakdownResult => decide (b.total ≤ a.total)) a c = true := by
    intro a b c hab hbc
    simp only [decide_eq_true_eq] at hab hbc ⊢
    exact le_trans hbc hab
  have htotal : ∀ a b : BreakdownResult,
      ((fun a b : BreakdownResult => decide (b.total ≤ a.total)) a b ||
        (fun a b : BreakdownResult => decide (b.total ≤ a.total)) b a) = true := by
    intro a b
    simp only [Bool.or_eq_true, decide_eq_true_eq]
    exact le_total b.total a.total
  refine ⟨?_, ?_, ?_⟩
  · exact (List.sorted_mergeSort htrans htotal _).imp (by simp)
  · exact List.mergeSort_perm _ _
  · intro a b hle hsub
    exact List.sublist_mergeSort htrans htotal (by simp [hle]) hsub

/-- Witness for `filteredResults_sorted_stable`: at the concrete input
`[rowB, rowA]` (equal totals), the stability clause yields that `[rowB, rowA]`
is still a sublist of the output. -/
theorem filteredResults_sorted_stable_witness :
    List.Sublist [rowB, rowA] (filteredResults [rowB, rowA]) := by
  refine (filteredResults_sorted_stable [rowB, rowA]).2.2 rowB rowA (by norm_num [rowA, rowB]) ?_
  have hfilter : [rowB, rowA].filter (fun r => decide (TASK_THRESHOLD < r.total)) =
      [rowB, rowA] := by
    simp [rowA, rowB, TASK_THRESHOLD]
  rw [hfilter]

/-- Claim C10: each phase row's top-level `total` is the phase window's length
converted to milliseconds, `(endTs - startTs) / 1000`, for any attribution
function and any task forest — independent of the per-origin sub-item totals. -/
theorem eventThreadBreakdown_totals
    (getExecutionTimingsByURL : TaskForest → List BreakdownResult)
    (threadTasks : TaskForest) (interactionEvent : EventTimingEvent) :
    (eventThreadBreakdown getExecutionTimingsByURL threadTasks interactionEvent).map
        (fun item => (item.phase, item.total)) =
      [("inputDelay",
          ((getPhaseTimes interactionEvent).inputDelay.endTs -
            (getPhaseTimes interactionEvent).inputDelay.startTs) / 1000),
       ("processingDelay",
          ((getPhaseTimes interactionEvent).processingDelay.endTs -
            (getPhaseTimes interactionEvent).processingDelay.startTs) / 1000),
       ("presentationDelay",
          ((getPhaseTimes interactionEvent).presentationDelay.endTs -
            (getPhaseTimes interactionEvent).presentationDelay.startTs) / 1000)] := rfl

/-- The shape of the audit's return value that the claims are about:
`score` (`null` embedded as `none`), the `notApplicable` flag (absent in the
scored branch of the source, i.e. `false`), and the table items of `details`. -/
structure AuditProduct where
  score : Option ℚ
  notApplicable : Bool
  details : List PhaseItem
deriving DecidableEq, Repr

/-- Embeds the control flow of `WorkDuringInteraction.audit`:
return `{score: null, notApplicable: true}` when
`settings.throttlingMethod === 'simulate'`; otherwise compute the interaction
event and return `{score: null, notApplicable: true}` when it is `null`;
otherwise score `duration < inpThresholds.p10 ? 1 : 0` and attach the
breakdown. `p10` (from the experimental-interaction-to-next-paint audit's
default options, external to this file) and the computed responsiveness event
are parameters. -/
def audit (p10 : ℚ) (throttlingMethod : String)
    (interactionEvent : Option EventTimingEvent)
    (getExecutionTimingsByURL : TaskForest → List BreakdownResult)
    (threadTasks : TaskForest) : AuditProduct :=
  if throttlingMethod = "simulate" then
    { score := none, notApplicable := true, details := [] }
  else
    match interactionEvent with
    | none => { score := none, notApplicable := true, details := [] }
    | some ie =>
      { score := some (if ie.data.duration < p10 then 1 else 0)
        notApplicable := false
        details := eventThreadBreakdown getExecutionTimingsByURL threadTasks ie }

/-- Claim C8: the audit returns the typed NotApplicable outcome (`score = none`
and `notApplicable = true`) exactly when throttling is simulated or no
interaction event is present; in every other case it returns a scored result
(`notApplicable = false`, `score = some (duration < p10 ? 1 : 0)`). -/
theorem audit_notApplicable_iff (p10 : ℚ) (throttlingMethod : String)
    (interactionEvent : Option EventTimingEvent)
    (getExecutionTimingsByURL : TaskForest → List BreakdownResult)
    (threadTasks : TaskForest) :
    (((audit p10 throttlingMethod interactionEvent getExecutionTimingsByURL
          threadTasks).notApplicable = true ∧
        (audit p10 throttlingMethod interactionEvent getExecutionTimingsByURL
          threadTasks).score = none) ↔
      (throttlingMethod = "simulate" ∨ interactionEvent = none)) ∧
    (throttlingMethod ≠ "simulate" →
      ∀ ie, interactionEvent = some ie →
        (audit p10 throttlingMethod interactionEvent getExecutionTimingsByURL
            threadTasks).notApplicable = false ∧
        (audit p10 throttlingMethod interactionEvent getExecutionTimingsByURL
            threadTasks).score = some (if ie.data.duration < p10 then 1 else 0)) := by
  unfold audit
  by_cases h : throttlingMethod = "simulate"
  · simp [h]
  · cases interactionEvent with
    | none => simp [h]
    | some ie => simp [h]

/-- A sample interaction event, the worked example of the specification:
`timeStamp = 0`, `processingStart = 5`, `processingEnd = 46`, `duration = 368`. -/
def sampleInteraction : EventTimingEvent :=
  ⟨1000, ⟨0, 5, 46, 368, "mousedown"⟩⟩

/-- Witness for `audit_notApplicable_iff`: a concrete non-simulated run with an
interaction event present produces a scored, applicable result. -/
theorem audit_notApplicable_iff_witness :
    ("devtools" : String) ≠ "simulate" ∧
    (audit 200 "devtools" (some sampleInteraction) (fun _ => [])
        TaskForest.nil).notApplicable = false ∧
    (audit 200 "devtools" (some sampleInteraction) (fun _ => [])
        TaskForest.nil).score =
      some (if sampleInteraction.data.duration < 200 then 1 else 0) :=
  ⟨by decide,
    (audit_notApplicable_iff 200 "devtools" (some sampleInteraction) (fun _ => [])
      TaskForest.nil).2 (by decide) sampleInteraction rfl⟩

/-- The setup-time failures raised through `validation.js` helpers:
`throwInvalidDependencyOrder(artifactId, dependencyName)` (the spec's
`DependencyOrderError`) and `throwInvalidArtifactDependency(artifactId,
dependencyName)` (the spec's `DependencyPhaseError`), each carrying the
artifact id and the dependency name. -/
inductive ConfigError where
  | invalidDependencyOrder (artifactId dependencyName : String)
  | invalidArtifactDependency (artifactId dependencyName : String)
deriving DecidableEq, Repr

/-- `gatherer.instance.meta` as read by artifact resolution: the optional
dependency `symbol` the gatherer registers, and the optional ordered
`dependencies` object, each entry a `(dependencyName, requiredSymbol)` pair.
JavaScript `Symbol`s are opaque unique tokens compared by identity; they are
embedded as `Nat`. -/
structure GathererMeta where
  symbol : Option Nat
  dependencies : Option (List (String × Nat))
deriving DecidableEq, Repr

/-- A resolved gatherer definition (`gatherer.instance` reduced to its `meta`;
loading the gatherer instance from the config is external to this code). -/
structure GathererDefn where
  meta : GathererMeta
deriving DecidableEq, Repr

/-- An `LH.Config.ArtifactJson` entry: an id and its gatherer. -/
structure ArtifactJson where
  id : String
  gatherer : GathererDefn
deriving DecidableEq, Repr

/-- An `LH.Config.AnyArtifactDefn`: the id, the gatherer, and for each declared
dependency name the resolved upstream artifact id
(`[dependencyName, {id: dependency.id}]` entries). -/
structure ArtifactDefn where
  id : String
  gatherer : GathererDefn
  dependencies : Option (List (String × String))
deriving DecidableEq, Repr

/-- `artifactDefnsBySymbol.get(sym)` where the map is represented as the list
of `set` operations, most recent first — `Map.set` overwrites, so lookup takes
the first (most recently registered) match. -/
def lookupSymbol (m : List (Nat × ArtifactDefn)) (s : Nat) : Option ArtifactDefn :=
  match m with
  | [] => none
  | (s', d) :: rest => if s' = s then some d else lookupSymbol rest s

/-- The `Object.entries(...).map(([dependencyName, artifactSymbol]) => ...)`
body of `resolveArtifactDependencies`, entry by entry and failing at the first
entry that throws — missing symbol first
(`throwInvalidDependencyOrder`), then the phase compatibility check
(`isValidArtifactDependency`, from `validation.js`, taken as the parameter
`valid`, `throwInvalidArtifactDependency` on failure). -/
def resolveDepEntries (valid : GathererDefn → GathererDefn → Bool) (artifactId : String)
    (gatherer : GathererDefn) (m : List (Nat × ArtifactDefn)) :
    List (String × Nat) → Except ConfigError (List (String × String))
  | [] => .ok []
  | (depName, sym) :: rest =>
    match lookupSymbol m sym with
    | none => .error (.invalidDependencyOrder artifactId depName)
    | some dep =>
      if valid gatherer dep.gatherer then
        match resolveDepEntries valid artifactId gatherer m rest with
        | .ok tl => .ok ((depName, dep.id) :: tl)
        | .error e => .error e
      else .error (.invalidArtifactDependency artifactId depName)

/-- Embeds `resolveArtifactDependencies(artifact, gatherer, artifactDefnsBySymbol)`:
`undefined` when the gatherer's meta has no `dependencies` key, otherwise the
resolved name→id entries. -/
def resolveArtifactDependencies (valid : GathererDefn → GathererDefn → Bool)
    (artifact : ArtifactJson) (m : List (Nat × ArtifactDefn)) :
    Except ConfigError (Option (List (String × String))) :=
  match artifact.gatherer.meta.dependencies with
  | none => .ok none
  | some deps => (resolveDepEntries valid artifact.id artifact.gatherer m deps).map some

/-- The `artifacts.map(artifactJson => ...)` loop of `resolveArtifactsToDefns`,
threading `artifactDefnsBySymbol` left to right: resolve the declaration's
dependencies against the map built so far, then — if its gatherer declares a
`symbol` — register the produced definition
(`artifactDefnsBySymbol.set(symbol, artifact)`, embedded as consing so a
re-registration overwrites). Returns the definitions in input order together
with the final symbol map, so intermediate states are expressible. -/
def resolveArtifactsGo (valid : GathererDefn → GathererDefn → Bool)
    (m : List (Nat × ArtifactDefn)) :
    List ArtifactJson → Except ConfigError (List ArtifactDefn × List (Nat × ArtifactDefn))
  | [] => .ok ([], m)
  | a :: rest =>
    match resolveArtifactDependencies valid a m with
    | .error e => .error e
    | .ok deps =>
      let defn : ArtifactDefn := ⟨a.id, a.gatherer, deps⟩
      let m' := match a.gatherer.meta.symbol with
        | some s => (s, defn) :: m
        | none => m
      match resolveArtifactsGo valid m' rest with
      | .error e => .error e
      | .ok (defns, mf) => .ok (defn :: defns, mf)

/-- Embeds `resolveArtifactsToDefns(artifacts, configDir)` for a present
artifact list: run the resolution loop starting from the empty
`artifactDefnsBySymbol` map (gatherer instance loading, the Fraggle Rock meta
check and logging are external and elided). -/
def resolveArtifactsToDefns (valid : GathererDefn → GathererDefn → Bool)
    (artifacts : List ArtifactJson) : Except ConfigError (List ArtifactDefn) :=
  (resolveArtifactsGo valid [] artifacts).map (fun p => p.1)

theorem resolveDepEntries_missing (valid : GathererDefn → GathererDefn → Bool)
    (aid : String) (g : GathererDefn) (m : List (Nat × ArtifactDefn))
    (depsPre depsPost : List (String × Nat)) (depName : String) (sym : Nat)
    (h₁ : ∀ p ∈ depsPre, ∃ dep, lookupSymbol m p.2 = some dep ∧ valid g dep.gatherer = true)
    (h₂ : lookupSymbol m sym = none) :
    resolveDepEntries valid aid g m (depsPre ++ (depName, sym) :: depsPost) =
      .error (.invalidDependencyOrder aid depName) := by
  induction depsPre with
  | nil => simp [resolveDepEntries, h₂]
  | cons p rest ih =>
    obtain ⟨dep, hdep, hvalid⟩ := h₁ p (by simp)
    have ihr := ih (fun q hq => h₁ q (by simp [hq]))
    cases p with
    | mk pn ps =>
      simp only [List.cons_append, resolveDepEntries]
      simp only at hdep
      rw [hdep]
      simp [hvalid, ihr]

theorem resolveArtifactsGo_missing (valid : GathererDefn → GathererDefn → Bool)
    (a : ArtifactJson) (post : List ArtifactJson)
    (depsPre depsPost : List (String × Nat)) (depName : String) (sym : Nat) :
    ∀ (pre : List ArtifactJson) (m0 : List (Nat × ArtifactDefn))
      (defs : List ArtifactDefn) (m : List (Nat × ArtifactDefn)),
    resolveArtifactsGo valid m0 pre = .ok (defs, m) →
    a.gatherer.meta.dependencies = some (depsPre ++ (depName, sym) :: depsPost) →
    (∀ p ∈ depsPre, ∃ dep, lookupSymbol m p.2 = some dep ∧
        valid a.gatherer dep.gatherer = true) →
    lookupSymbol m sym = none →
    resolveArtifactsGo valid m0 (pre ++ a :: post) =
      .error (.invalidDependencyOrder a.id depName) := by
  intro pre
  induction pre with
  | nil =>
    intro m0 defs m hok hdeps h₁ h₂
    simp only [resolveArtifactsGo, Except.ok.injEq, Prod.mk.injEq] at hok
    obtain ⟨-, rfl⟩ := hok
    simp only [List.nil_append, resolveArtifactsGo, resolveArtifactDependencies, hdeps]
    rw [resolveDepEntries_missing valid a.id a.gatherer m0 depsPre depsPost depName sym h₁ h₂]
    rfl
  | cons b rest ih =>
    intro m0 defs m hok hdeps h₁ h₂
    simp only [resolveArtifactsGo] at hok
    cases hra : resolveArtifactDependencies valid b m0 with
    | error e => rw [hra] at hok; cases hok
    | ok deps =>
      rw [hra] at hok
      simp only [] at hok
      cases hrest : resolveArtifactsGo valid
          (match b.gatherer.meta.symbol with
            | some s => (s, ⟨b.id, b.gatherer, deps⟩) :: m0
            | none => m0) rest with
      | error e => rw [hrest] at hok; cases hok
      | ok p =>
        rw [hrest] at hok
        cases p with
        | mk ds mf =>
          simp only [Except.ok.injEq, Prod.mk.injEq] at hok
          obtain ⟨-, rfl⟩ := hok
          simp only [List.cons_append, resolveArtifactsGo, hra, List.append_eq]
          rw [ih _ _ _ hrest hdeps h₁ h₂]

/-- Claim C4: if the declarations before `a` resolve successfully (producing
symbol map `m`), and among `a`'s declared dependencies the first failing entry
is `(depName, sym)` — every earlier entry resolves to a registered,
phase-compatible artifact, while `sym` is not registered by any earlier
declaration (never declared, or first declared later in `post`) — then the
whole resolution fails with `DependencyOrderError` naming `a`'s id and that
dependency name. -/
theorem resolveArtifactsToDefns_missing_dependency
    (valid : GathererDefn → GathererDefn → Bool)
    (pre : List ArtifactJson) (a : ArtifactJson) (post : List ArtifactJson)
    (defs : List ArtifactDefn) (m : List (Nat × ArtifactDefn))
    (depsPre depsPost : List (String × Nat)) (depName : String) (sym : Nat)
    (hpre : resolveArtifactsGo valid [] pre = .ok (defs, m))
    (hdeps : a.gatherer.meta.dependencies = some (depsPre ++ (depName, sym) :: depsPost))
    (h₁ : ∀ p ∈ depsPre, ∃ dep, lookupSymbol m p.2 = some dep ∧
        valid a.gatherer dep.gatherer = true)
    (h₂ : lookupSymbol m sym = none) :
    resolveArtifactsToDefns valid (pre ++ a :: post) =
      .error (.invalidDependencyOrder a.id depName) := by
  unfold resolveArtifactsToDefns
  rw [resolveArtifactsGo_missing valid a post depsPre depsPost depName sym pre [] defs m
    hpre hdeps h₁ h₂]
  rfl

/-- The specification's worked example: `B` depends on a symbol that only the
later declaration `A` registers. -/
def declB : ArtifactJson := ⟨"B", ⟨⟨none, some [("A", 0)]⟩⟩⟩

/-- The declaration registering symbol `0`, declared after `declB`. -/
def declA : ArtifactJson := ⟨"A", ⟨⟨some 0, none⟩⟩⟩

/-- Witness for `resolveArtifactsToDefns_missing_dependency`: the spec example
`[B(deps: A), A]` fails with `DependencyOrderError("B", "A")`. -/
theorem resolveArtifactsToDefns_missing_dependency_witness :
    resolveArtifactsToDefns (fun _ _ => true) [declB, declA] =
      .error (.invalidDependencyOrder "B" "A") :=
  resolveArtifactsToDefns_missing_dependency (fun _ _ => true) [] declB [declA] [] []
    [] [] "A" 0 rfl rfl (by simp) rfl

/-- First declaration registering symbol `0`. -/
def dupFirst : ArtifactJson := ⟨"First", ⟨⟨some 0, none⟩⟩⟩

/-- Second declaration registering the same symbol `0` as `dupFirst`. -/
def dupSecond : ArtifactJson := ⟨"Second", ⟨⟨some 0, none⟩⟩⟩

/-- A declaration depending on symbol `0`, declared after both registrations. -/
def dupConsumer : ArtifactJson := ⟨"Consumer", ⟨⟨none, some [("dep", 0)]⟩⟩⟩

/-- Claim C5 counterexample: two declarations register the same symbol, yet
resolution succeeds — `artifactDefnsBySymbol.set(symbol, artifact)` silently
overwrites, no error of any kind is raised, and a later dependency on the
symbol resolves to the second (most recent) declaration. -/
theorem resolveArtifactsToDefns_duplicate_counterexample :
    resolveArtifactsToDefns (fun _ _ => true) [dupFirst, dupSecond, dupConsumer] =
      .ok [⟨"First", dupFirst.gatherer, none⟩,
           ⟨"Second", dupSecond.gatherer, none⟩,
           ⟨"Consumer", dupConsumer.gatherer, some [("dep", "Second")]⟩] := rfl

/-- Claim C5 (amended): when a declaration registers a symbol (or id) that an
earlier declaration in the same list has already registered, resolution
succeeds — there is no duplicate-id failure; the later registration overwrites
the earlier one in the symbol map, so subsequent declarations' dependencies on
that symbol resolve to the most recently declared artifact. -/
theorem resolveArtifactsToDefns_duplicate_overwrites
    (valid : GathererDefn → GathererDefn → Bool)
    (a1 a2 b : ArtifactJson) (s : Nat) (depName : String)
    (h1s : a1.gatherer.meta.symbol = some s)
    (h1d : a1.gatherer.meta.dependencies = none)
    (h2s : a2.gatherer.meta.symbol = some s)
    (h2d : a2.gatherer.meta.dependencies = none)
    (hbs : b.gatherer.meta.symbol = none)
    (hbd : b.gatherer.meta.dependencies = some [(depName, s)])
    (hvalid : valid b.gatherer a2.gatherer = true) :
    resolveArtifactsToDefns valid [a1, a2, b] =
      .ok [⟨a1.id, a1.gatherer, none⟩, ⟨a2.id, a2.gatherer, none⟩,
           ⟨b.id, b.gatherer, some [(depName, a2.id)]⟩] := by
  simp [resolveArtifactsToDefns, resolveArtifactsGo, resolveArtifactDependencies,
    resolveDepEntries, lookupSymbol, Except.map, h1s, h1d, h2s, h2d, hbs, hbd, hvalid]

/-- Witness for `resolveArtifactsToDefns_duplicate_overwrites`: the concrete
duplicate-symbol list resolves successfully with the consumer's dependency
bound to the second declaration's id. -/
theorem resolveArtifactsToDefns_duplicate_overwrites_witness :
    resolveArtifactsToDefns (fun _ _ => true) [dupFirst, dupSecond, dupConsumer] =
      .ok [⟨dupFirst.id, dupFirst.gatherer, none⟩,
           ⟨dupSecond.id, dupSecond.gatherer, none⟩,
           ⟨dupConsumer.id, dupConsumer.gatherer, some [("dep", dupSecond.id)]⟩] :=
  resolveArtifactsToDefns_duplicate_overwrites (fun _ _ => true) dupFirst dupSecond
    dupConsumer 0 "dep" rfl rfl rfl rfl rfl rfl rfl

/-- Modelled from the spec: the computed-artifact cache is not part of the
source in view (it lives in the computed-artifact layer that
`ComputedResponsivenes.request` / `NetworkRecords.request` /
`ProcessedTrace.request` call into). A `ComputationKey` is the pair
(computation kind, deterministic fingerprint of the inputs). -/
structure ComputationKey where
  kind : String
  fingerprint : Nat
deriving DecidableEq, Repr

/-- Lookup in the cache's key → stored-result map. -/
def cacheLookup {V : Type} (entries : List (ComputationKey × V)) (k : ComputationKey) :
    Option V :=
  match entries with
  | [] => none
  | (k', v) :: rest => if k' = k then some v else cacheLookup rest k

/-- Modelled from the spec: one `request(kind, inputs, computeFn)` call against
a cache instance. The stored entry is the shared unit of work: it is recorded
under its key as soon as the first request creates it (per the spec, the
pending handle itself is stored before completion), so any request arriving
while it is pending or after it completes observes the same entry. A request
carries the value its own `computeFn` would produce if it were the one
executed; the call returns the new cache state, the value this requester
receives, and whether it actually executed its `computeFn`. The JavaScript
event loop serializes the map accesses, so concurrent requests are an
interleaving — a request sequence. -/
def cacheRequest {V : Type} (entries : List (ComputationKey × V)) (k : ComputationKey)
    (v : V) : List (ComputationKey × V) × V × Bool :=
  match cacheLookup entries k with
  | some w => (entries, w, false)
  | none => ((k, v) :: entries, v, true)

/-- Runs a sequence of requests against one cache instance, left to right,
recording for each request its key, the value returned and whether its
`computeFn` executed. -/
def runRequests {V : Type} (entries : List (ComputationKey × V)) :
    List (ComputationKey × V) → List (ComputationKey × V × Bool)
  | [] => []
  | (k, v) :: rest =>
    let r := cacheRequest entries k v
    (k, r.2.1, r.2.2) :: runRequests r.1 rest

/-- How many requests with key `k` actually executed their `computeFn`. -/
def execCount {V : Type} (k : ComputationKey) (outs : List (ComputationKey × V × Bool)) :
    Nat :=
  (outs.filter (fun o => decide (o.1 = k) && o.2.2)).length

/-- The values returned to the requests with key `k`, in request order. -/
def returnsFor {V : Type} (k : ComputationKey) (outs : List (ComputationKey × V × Bool)) :
    List V :=
  (outs.filter (fun o => decide (o.1 = k))).map (fun o => o.2.1)

theorem execCount_cons {V : Type} (k k₀ : ComputationKey) (v₀ : V) (b₀ : Bool)
    (outs : List (ComputationKey × V × Bool)) :
    execCount k ((k₀, v₀, b₀) :: outs) =
      (if k₀ = k ∧ b₀ = true then 1 else 0) + execCount k outs := by
  by_cases h : k₀ = k <;> cases b₀ <;>
    simp [execCount, List.filter_cons, h, Nat.add_comm]

theorem returnsFor_cons {V : Type} (k k₀ : ComputationKey) (v₀ : V) (b₀ : Bool)
    (outs : List (ComputationKey × V × Bool)) :
    returnsFor k ((k₀, v₀, b₀) :: outs) =
      if k₀ = k then v₀ :: returnsFor k outs else returnsFor k outs := by
  by_cases h : k₀ = k <;> simp [returnsFor, List.filter_cons, h]

theorem allEq_cons {V : Type} (w : V) (l : List V) (h : ∀ v ∈ l, v = w) :
    ∀ v₁ ∈ w :: l, ∀ v₂ ∈ w :: l, v₁ = v₂ := by
  intro v₁ h₁ v₂ h₂
  have e₁ : v₁ = w := (List.mem_cons.mp h₁).elim id (h v₁)
  have e₂ : v₂ = w := (List.mem_cons.mp h₂).elim id (h v₂)
  rw [e₁, e₂]

theorem runRequests_hit {V : Type} (k : ComputationKey) (w : V) :
    ∀ (reqs s : List (ComputationKey × V)),
    cacheLookup s k = some w →
    execCount k (runRequests s reqs) = 0 ∧
    ∀ v ∈ returnsFor k (runRequests s reqs), v = w := by
  intro reqs
  induction reqs with
  | nil =>
    intro s hs
    refine ⟨rfl, ?_⟩
    intro v hv
    simp [runRequests, returnsFor] at hv
  | cons req rest ih =>
    intro s hs
    obtain ⟨k', v'⟩ := req
    cases hk : cacheLookup s k' with
    | some w' =>
      have hrun : runRequests s ((k', v') :: rest) =
          (k', w', false) :: runRequests s rest := by
        simp [runRequests, cacheRequest, hk]
      obtain ⟨ihc, ihr⟩ := ih s hs
      refine ⟨?_, ?_⟩
      · rw [hrun, execCount_cons, ihc]; simp
      · rw [hrun, returnsFor_cons]
        by_cases hkk : k' = k
        · have hww : w' = w := by
            rw [hkk, hs] at hk
            exact (Option.some_inj.mp hk).symm
          simp only [if_pos hkk]
          intro v hv
          rcases List.mem_cons.mp hv with hv | hv
          · rw [hv, hww]
          · exact ihr v hv
        · simp only [if_neg hkk]
          exact ihr
    | none =>
      by_cases hkk : k' = k
      · rw [hkk, hs] at hk
        exact Option.noConfusion hk
      · have hrun : runRequests s ((k', v') :: rest) =
            (k', v', true) :: runRequests ((k', v') :: s) rest := by
          simp [runRequests, cacheRequest, hk]
        have hlook : cacheLookup ((k', v') :: s) k = some w := by
          simp [cacheLookup, hkk, hs]
        obtain ⟨ihc, ihr⟩ := ih ((k', v') :: s) hlook
        refine ⟨?_, ?_⟩
        · rw [hrun, execCount_cons, ihc]
          simp [hkk]
        · rw [hrun, returnsFor_cons]
          simp only [if_neg hkk]
          exact ihr

theorem runRequests_dedup_aux {V : Type} (k : ComputationKey) :
    ∀ (reqs s : List (ComputationKey × V)),
    execCount k (runRequests s reqs) ≤ 1 ∧
    ∀ v₁ ∈ returnsFor k (runRequests s reqs),
      ∀ v₂ ∈ returnsFor k (runRequests s reqs), v₁ = v₂ := by
  intro reqs
  induction reqs with
  | nil =>
    intro s
    refine ⟨by simp [runRequests, execCount], ?_⟩
    intro v₁ h₁
    simp [runRequests, returnsFor] at h₁
  | cons req rest ih =>
    intro s
    obtain ⟨k', v'⟩ := req
    cases hk : cacheLookup s k' with
    | some w' =>
      have hrun : runRequests s ((k', v') :: rest) =
          (k', w', false) :: runRequests s rest := by
        simp [runRequests, cacheRequest, hk]
      refine ⟨?_, ?_⟩
      · rw [hrun, execCount_cons]
        simpa using (ih s).1
      · rw [hrun, returnsFor_cons]
        by_cases hkk : k' = k
        · have hit := runRequests_hit k w' rest s (hkk ▸ hk)
          simp only [if_pos hkk]
          exact allEq_cons w' _ hit.2
        · simp only [if_neg hkk]
          exact (ih s).2
    | none =>
      have hrun : runRequests s ((k', v') :: rest) =
          (k', v', true) :: runRequests ((k', v') :: s) rest := by
        simp [runRequests, cacheRequest, hk]
      by_cases hkk : k' = k
      · have hlook : cacheLookup ((k', v') :: s) k = some v' := by
          simp [cacheLookup, hkk]
        have hit := runRequests_hit k v' rest ((k', v') :: s) hlook
        refine ⟨?_, ?_⟩
        · rw [hrun, execCount_cons, hit.1]
          simp [hkk]
        · rw [hrun, returnsFor_cons]
          simp only [if_pos hkk]
          exact allEq_cons v' _ hit.2
      · refine ⟨?_, ?_⟩
        · rw [hrun, execCount_cons]
          simpa [hkk] using (ih ((k', v') :: s)).1
        · rw [hrun, returnsFor_cons]
          simp only [if_neg hkk]
          exact (ih ((k', v') :: s)).2

/-- Claim C9: for every fresh cache instance and every `ComputationKey`, over
any sequence of `request` calls the `computeFn` for that key executes at most
once, and every request with that key — including any issued while the first
execution's unit of work is still the stored pending entry — receives the same
result. -/
theorem cache_dedup (V : Type) (reqs : List (ComputationKey × V)) (k : ComputationKey) :
    execCount k (runRequests [] reqs) ≤ 1 ∧
    ∀ v₁ ∈ returnsFor k (runRequests [] reqs),
      ∀ v₂ ∈ returnsFor k (runRequests [] reqs), v₁ = v₂ :=
  runRequests_dedup_aux k reqs []

/-- Two requests for the same key (with different would-be computation
payloads) followed by an unrelated request. -/
def sampleRequests : List (ComputationKey × Nat) :=
  [(⟨"trace", 1⟩, 10), (⟨"trace", 1⟩, 20), (⟨"network", 2⟩, 30)]

/-- Witness for `cache_dedup`: on the concrete request sequence, the key
`⟨"trace", 1⟩` executes at most once and 10 — the value stored by the first
request and also returned to the second — is self-consistent; the second
request's own payload 20 is never computed. -/
theorem cache_dedup_witness :
    execCount ⟨"trace", 1⟩ (runRequests [] sampleRequests) ≤ 1 ∧ (10 : Nat) = 10 :=
  ⟨(cache_dedup Nat sampleRequests ⟨"trace", 1⟩).1,
   (cache_dedup Nat sampleRequests ⟨"trace", 1⟩).2 10 (by decide) 10 (by decide)⟩
